import Mathlib

/-!
Shallow embedding of the localization core of the repository
(src/orbtk_base/src/localization/mod.rs): a `Dictionary` mapping word keys
to translated strings, a `Localization` holding the active language key and
a map from language key to `Dictionary`, and a fluent `LocalizationBuilder`.
Rust `HashMap<String, _>` is embedded as an association list with
overwrite-on-insert semantics; `&mut self` methods are embedded as
state-passing functions; `text(&self, ...)` is also given a state-passing
form `textCall` returning the (unchanged) receiver state.
The `dictionary` submodule (RON parsing) is not part of the supplied
source; it is modelled from the specification (see `Dictionary.parse`).
-/

namespace Orbtk

/-- Whitespace characters recognised by the modelled RON-subset reader. -/
def isWs (c : Char) : Bool :=
  c = ' ' || c = '\n' || c = '\t' || c = '\r'

/-- Drops leading whitespace characters. -/
def skipWs : List Char → List Char
  | [] => []
  | c :: cs => if isWs c then skipWs cs else c :: cs

/-- Consumes the expected literal character, failing otherwise. -/
def expectChar (c : Char) : List Char → Option (List Char)
  | [] => none
  | x :: xs => if x = c then some xs else none

/-- Consumes the expected literal token, failing otherwise. -/
def expectTok : List Char → List Char → Option (List Char)
  | [], cs => some cs
  | _ :: _, [] => none
  | p :: ps, c :: cs => if c = p then expectTok ps cs else none

/-- Reads characters of a string body up to the closing quote. -/
def takeStringBody : List Char → Option (List Char × List Char)
  | [] => none
  | c :: cs =>
    if c = '"' then some ([], cs)
    else
      match takeStringBody cs with
      | some (body, rest) => some (c :: body, rest)
      | none => none

/-- Reads a quoted string literal (no escape sequences). -/
def parseStringLit : List Char → Option (String × List Char)
  | [] => none
  | c :: cs =>
    if c = '"' then
      match takeStringBody cs with
      | some (body, rest) => some (String.mk body, rest)
      | none => none
    else none

/-- Reads one key-value pair of the words map. -/
def parsePair (cs : List Char) : Option ((String × String) × List Char) :=
  (parseStringLit cs).bind fun k =>
    (expectChar ':' (skipWs k.2)).bind fun cs2 =>
      (parseStringLit (skipWs cs2)).map fun v => ((k.1, v.1), v.2)

/-- Reads the comma-separated entries of the words map, consuming the
closing brace; the fuel argument bounds the recursion depth. -/
def parseEntries : Nat → List Char → Option (List (String × String) × List Char)
  | 0, _ => none
  | fuel + 1, cs =>
    match skipWs cs with
    | [] => none
    | c :: rest =>
      if c = '\x7d' then some ([], rest)
      else
        (parsePair (c :: rest)).bind fun pr =>
          match skipWs pr.2 with
          | [] => none
          | c2 :: cs2 =>
            if c2 = ',' then
              (parseEntries fuel cs2).map fun q => (pr.1 :: q.1, q.2)
            else if c2 = '\x7d' then some ([pr.1], cs2)
            else none

/-- Token for the struct name of the expected schema. -/
def dictTok : List Char := "Dictionary".data

/-- Token for the single field of the expected schema. -/
def wordsTok : List Char := "words".data

/-- Reads a whole dictionary blob of the expected schema: a single object
named Dictionary with one field words mapping string to string. -/
def parseBlob (cs : List Char) : Option (List (String × String)) :=
  (expectTok dictTok (skipWs cs)).bind fun c1 =>
    (expectChar '(' (skipWs c1)).bind fun c2 =>
      (expectTok wordsTok (skipWs c2)).bind fun c3 =>
        (expectChar ':' (skipWs c3)).bind fun c4 =>
          (expectChar '\x7b' (skipWs c4)).bind fun c5 =>
            (parseEntries (c5.length + 1) c5).bind fun pr =>
              (expectChar ')' (skipWs pr.2)).bind fun c6 =>
                if skipWs c6 = [] then some pr.1 else none

/-- Error reported when a blob does not conform to the expected schema. -/
inductive ParseError where
  | malformed : ParseError
deriving DecidableEq, Repr

/-- Association-list map with the overwrite semantics of HashMap insert:
an existing binding of the key is replaced, otherwise the binding is
appended. -/
def mapInsert {α : Type} (m : List (String × α)) (k : String) (v : α) :
    List (String × α) :=
  match m with
  | [] => [(k, v)]
  | (k', v') :: rest =>
    if k' = k then (k, v) :: rest else (k', v') :: mapInsert rest k v

/-- Embedding of the Dictionary struct of the missing dictionary
submodule: a flat map from word key to translated string. -/
structure Dictionary where
  words : List (String × String)
deriving DecidableEq, Repr

/-- Modelled from the spec: the dictionary submodule is not part of the
supplied source. Parsing a text blob fails with a ParseError when the blob
does not conform to the expected schema (a single object with one field
words, itself a mapping from string to string); duplicate word keys keep
the last binding, matching map-insert semantics. -/
def Dictionary.parse (s : String) : Except ParseError Dictionary :=
  match parseBlob s.data with
  | some ps => .ok ⟨ps.foldl (fun m p => mapInsert m p.1 p.2) []⟩
  | none => .error .malformed

/-- Modelled from the spec: the infallible conversion used at the
builder's call site of Dictionary construction; on a malformed blob it
yields the empty dictionary, one of the two policies the spec names for
an implementer of the missing submodule. -/
def Dictionary.fromBlob (s : String) : Dictionary :=
  match Dictionary.parse s with
  | .ok d => d
  | .error _ => ⟨[]⟩

/-- Embedding of LocalizationBuilder: staged configuration holding the
initial language key and the accumulated dictionaries. -/
structure LocalizationBuilder where
  language : String
  dictionaries : List (String × Dictionary)
deriving DecidableEq, Repr

/-- Embedding of LocalizationBuilder::dictionary: parses the blob and
inserts or overwrites the entry for the key. -/
def LocalizationBuilder.dictionary (b : LocalizationBuilder) (key : String)
    (blob : String) : LocalizationBuilder :=
  { b with dictionaries := mapInsert b.dictionaries key (Dictionary.fromBlob blob) }

/-- Embedding of LocalizationBuilder::language (named withLanguage here
because the Rust method shares its name with the struct field): sets the
initial language key. -/
def LocalizationBuilder.withLanguage (b : LocalizationBuilder)
    (language : String) : LocalizationBuilder :=
  { b with language := language }

/-- Embedding of Localization: active language key and the map from
language key to dictionary. -/
structure Localization where
  language : String
  dictionaries : List (String × Dictionary)
deriving DecidableEq, Repr

/-- Embedding of LocalizationBuilder::build: moves both fields into the
resulting Localization. -/
def LocalizationBuilder.build (b : LocalizationBuilder) : Localization :=
  { language := b.language, dictionaries := b.dictionaries }

/-- Embedding of Localization::create: a default builder with empty
language and no dictionaries. -/
def Localization.create : LocalizationBuilder :=
  { language := "", dictionaries := [] }

/-- Embedding of Localization::set_language: the `&mut self` method as a
state-passing function; unconditionally overwrites the language key. -/
def Localization.set_language (l : Localization) (key : String) : Localization :=
  { l with language := key }

/-- Embedding of Localization::text: looks up the dictionary of the
active language, then the key inside it, returning the key itself when
either lookup fails. -/
def Localization.text (l : Localization) (key : String) : String :=
  match List.lookup l.language l.dictionaries with
  | some dictionary =>
    match List.lookup key dictionary.words with
    | some word => word
    | none => key
  | none => key

/-- Embedding of a call to Localization::text through its `&self`
receiver: the pair of the returned string and the receiver state after
the call, which an immutable borrow leaves unchanged. -/
def Localization.textCall (l : Localization) (key : String) :
    String × Localization :=
  (l.text key, l)

/-- Embedding of the From conversions building a Localization from a
single (language-key, blob) pair: the blob is inserted as the dictionary
for the first component and is also passed to the builder's language
setter. -/
def Localization.fromPair (p : String × String) : Localization :=
  (((Localization.create).dictionary p.1 p.2).withLanguage p.2).build

/-- Lists made only of whitespace characters. -/
def Ws (w : List Char) : Prop := ∀ c ∈ w, isWs c = true

/-- Strings whose characters never include a double quote. -/
def NoQuote (s : String) : Prop := ∀ c ∈ s.data, c ≠ '"'

/-- Concrete character rendering of a quoted string literal. -/
def strLit (s : String) : List Char := '"' :: s.data ++ ['"']

/-- Grammar of the entry region of a conforming blob: the characters
between the opening brace (exclusive) and the closing brace (inclusive),
carrying the word pairs they denote. Trailing commas are allowed. -/
inductive EntriesG : List (String × String) → List Char → Prop where
  | done (w : List Char) (hw : Ws w) : EntriesG [] (w ++ ['\x7d'])
  | last (k v : String) (w1 w2 w3 w4 : List Char)
      (hk : NoQuote k) (hv : NoQuote v)
      (h1 : Ws w1) (h2 : Ws w2) (h3 : Ws w3) (h4 : Ws w4) :
      EntriesG [(k, v)]
        (w1 ++ strLit k ++ w2 ++ ':' :: w3 ++ strLit v ++ w4 ++ ['\x7d'])
  | cons (k v : String) (ps : List (String × String))
      (w1 w2 w3 w4 rest : List Char)
      (hk : NoQuote k) (hv : NoQuote v)
      (h1 : Ws w1) (h2 : Ws w2) (h3 : Ws w3) (h4 : Ws w4)
      (hrest : EntriesG ps rest) :
      EntriesG ((k, v) :: ps)
        (w1 ++ strLit k ++ w2 ++ ':' :: w3 ++ strLit v ++ w4 ++ ',' :: rest)

/-- Grammar of a whole conforming blob: the Dictionary header, the words
field, the braced entry region, and the closing parenthesis, with
whitespace anywhere between tokens. -/
inductive BlobG : List (String × String) → List Char → Prop where
  | mk (ps : List (String × String)) (w1 w2 w3 w4 w5 w6 w7 region : List Char)
      (h1 : Ws w1) (h2 : Ws w2) (h3 : Ws w3) (h4 : Ws w4) (h5 : Ws w5)
      (h6 : Ws w6) (h7 : Ws w7) (hE : EntriesG ps region) :
      BlobG ps
        (w1 ++ dictTok ++ w2 ++ '(' :: w3 ++ wordsTok ++ w4 ++ ':' :: w5 ++
          '\x7b' :: (region ++ w6 ++ ')' :: w7))

/-- Conformance of a text blob to the expected schema: some list of word
pairs derives it in the blob grammar. -/
def Conforms (s : String) : Prop := ∃ ps, BlobG ps s.data

/-- Looking up the inserted key yields the inserted value. -/
theorem lookup_mapInsert_self {α : Type} (m : List (String × α)) (k : String)
    (v : α) : List.lookup k (mapInsert m k v) = some v := by
  induction m with
  | nil => simp [mapInsert, List.lookup]
  | cons p rest ih =>
    by_cases h : p.1 = k
    · simp [mapInsert, h, List.lookup]
    · have hb : (k == p.1) = false := beq_eq_false_iff_ne.mpr (Ne.symm h)
      simp [mapInsert, h, List.lookup, hb, ih]

/-- Looking up any other key is unchanged by an insertion. -/
theorem lookup_mapInsert_ne {α : Type} (m : List (String × α)) (k k' : String)
    (v : α) (h : k' ≠ k) :
    List.lookup k' (mapInsert m k v) = List.lookup k' m := by
  have hb : (k' == k) = false := beq_eq_false_iff_ne.mpr h
  induction m with
  | nil => simp [mapInsert, List.lookup, hb]
  | cons p rest ih =>
    by_cases hp : p.1 = k
    · subst hp
      simp [mapInsert, List.lookup, hb, ih]
    · simp [mapInsert, hp, List.lookup, ih]

/-- Every input splits into a whitespace prefix and its skipWs tail. -/
theorem skipWs_decomp (cs : List Char) : ∃ w, Ws w ∧ cs = w ++ skipWs cs := by
  induction cs with
  | nil => exact ⟨[], fun c hc => absurd hc (List.not_mem_nil c), rfl⟩
  | cons c cs ih =>
    by_cases h : isWs c
    · obtain ⟨w, hw, he⟩ := ih
      refine ⟨c :: w, ?_, ?_⟩
      · intro x hx
        rcases List.mem_cons.mp hx with hx | hx
        · exact hx ▸ h
        · exact hw x hx
      · simpa [skipWs, h] using congrArg (c :: ·) he
    · exact ⟨[], fun c hc => absurd hc (List.not_mem_nil c), by simp [skipWs, h]⟩

/-- Skipping whitespace passes over an all-whitespace prefix. -/
theorem skipWs_ws_append (w cs : List Char) (hw : Ws w) :
    skipWs (w ++ cs) = skipWs cs := by
  induction w with
  | nil => rfl
  | cons c w ih =>
    have hc : isWs c = true := hw c (List.mem_cons_self c w)
    have hw' : Ws w := fun x hx => hw x (List.mem_cons_of_mem c hx)
    simp [skipWs, hc, ih hw']

/-- Skipping whitespace stops at a non-whitespace head. -/
theorem skipWs_cons_nws (c : Char) (cs : List Char) (h : isWs c = false) :
    skipWs (c :: cs) = c :: cs := by
  simp [skipWs, h]

/-- An all-whitespace list is skipped entirely. -/
theorem skipWs_ws_nil (w : List Char) (hw : Ws w) : skipWs w = [] := by
  have := skipWs_ws_append w [] hw
  simpa using this

/-- Success of expectChar means the input started with that character. -/
theorem expectChar_sound (c : Char) (cs rest : List Char)
    (h : expectChar c cs = some rest) : cs = c :: rest := by
  cases cs with
  | nil => simp [expectChar] at h
  | cons x xs =>
    by_cases hx : x = c
    · simp [expectChar, hx] at h
      rw [hx, h]
    · simp [expectChar, hx] at h

/-- Success of expectTok means the input started with that token. -/
theorem expectTok_sound (pat : List Char) : ∀ cs rest,
    expectTok pat cs = some rest → cs = pat ++ rest := by
  induction pat with
  | nil =>
    intro cs rest h
    simp [expectTok] at h
    simpa using h
  | cons p ps ih =>
    intro cs rest h
    cases cs with
    | nil => simp [expectTok] at h
    | cons c cs' =>
      by_cases hc : c = p
      · subst hc
        simp [expectTok] at h
        simpa using ih cs' rest h
      · simp [expectTok, hc] at h

/-- Success of takeStringBody splits the input at the first quote. -/
theorem takeStringBody_sound : ∀ cs body rest,
    takeStringBody cs = some (body, rest) →
      cs = body ++ '"' :: rest ∧ ∀ c ∈ body, c ≠ '"' := by
  intro cs
  induction cs with
  | nil => intro body rest h; simp [takeStringBody] at h
  | cons c cs' ih =>
    intro body rest h
    by_cases hc : c = '"'
    · subst hc
      simp [takeStringBody] at h
      obtain ⟨hb, hr⟩ := h
      subst hb; subst hr
      exact ⟨rfl, by simp⟩
    · rw [takeStringBody] at h
      simp only [hc, if_false] at h
      cases ht : takeStringBody cs' with
      | none => rw [ht] at h; simp at h
      | some p =>
        rw [ht] at h
        simp only [Option.some.injEq, Prod.mk.injEq] at h
        obtain ⟨hb, hr⟩ := h
        obtain ⟨he, hq⟩ := ih p.1 p.2 (by rw [ht])
        subst hb; subst hr
        refine ⟨by simp [he], ?_⟩
        intro x hx
        rcases List.mem_cons.mp hx with hx | hx
        · exact hx ▸ hc
        · exact hq x hx

/-- Success of parseStringLit means the input started with that quoted
string literal, whose body holds no quote. -/
theorem parseStringLit_sound (cs : List Char) (s : String) (rest : List Char)
    (h : parseStringLit cs = some (s, rest)) :
    NoQuote s ∧ cs = strLit s ++ rest := by
  cases cs with
  | nil => simp [parseStringLit] at h
  | cons c cs' =>
    by_cases hc : c = '"'
    · subst hc
      rw [parseStringLit] at h
      rw [if_pos rfl] at h
      cases ht : takeStringBody cs' with
      | none => rw [ht] at h; simp at h
      | some p =>
        rw [ht] at h
        simp only [Option.some.injEq, Prod.mk.injEq] at h
        obtain ⟨hs, hr⟩ := h
        obtain ⟨he, hq⟩ := takeStringBody_sound cs' p.1 p.2 (by rw [ht])
        subst hr
        constructor
        · intro x hx
          exact hq x (by rw [← hs] at hx; exact hx)
        · rw [← hs]
          simp [strLit, he]
    · simp [parseStringLit, hc] at h

/-- Success of parsePair means the input started with a quoted key, a
colon and a quoted value, separated by whitespace. -/
theorem parsePair_sound (cs : List Char) (k v : String) (rest : List Char)
    (h : parsePair cs = some ((k, v), rest)) :
    NoQuote k ∧ NoQuote v ∧ ∃ w2 w3, Ws w2 ∧ Ws w3 ∧
      cs = strLit k ++ (w2 ++ ':' :: (w3 ++ (strLit v ++ rest))) := by
  simp only [parsePair, Option.bind_eq_some, Option.map_eq_some'] at h
  obtain ⟨kp, hkp, c2, hc2, vp, hvp, heq⟩ := h
  obtain ⟨hqk, hek⟩ := parseStringLit_sound _ _ _ hkp
  obtain ⟨w2, hw2, he2⟩ := skipWs_decomp kp.2
  have hcol : skipWs kp.2 = ':' :: c2 := expectChar_sound _ _ _ hc2
  obtain ⟨hqv, hev⟩ := parseStringLit_sound _ _ _ hvp
  obtain ⟨w3, hw3, he3⟩ := skipWs_decomp c2
  have h1 : k = kp.1 := by
    have := congrArg (fun q => q.1.1) heq
    simpa using this.symm
  have h2 : v = vp.1 := by
    have := congrArg (fun q => q.1.2) heq
    simpa using this.symm
  have h3 : rest = vp.2 := by
    have := congrArg (fun q => q.2) heq
    simpa using this.symm
  subst h1; subst h2; subst h3
  refine ⟨hqk, hqv, w2, w3, hw2, hw3, ?_⟩
  rw [hek, he2, hcol, he3, hev]

/-- Success of parseEntries means the consumed region derives the
returned pairs in the entry grammar. -/
theorem parseEntries_sound (fuel : Nat) : ∀ cs ps rest,
    parseEntries fuel cs = some (ps, rest) →
      ∃ region, cs = region ++ rest ∧ EntriesG ps region := by
  induction fuel with
  | zero => intro cs ps rest h; simp [parseEntries] at h
  | succ f ih =>
    intro cs ps rest h
    obtain ⟨w, hw, hdec⟩ := skipWs_decomp cs
    rw [parseEntries] at h
    cases hsk : skipWs cs with
    | nil => rw [hsk] at h; simp at h
    | cons c rest1 =>
      rw [hsk] at h
      rw [hsk] at hdec
      dsimp only at h
      by_cases hc : c = '\x7d'
      · subst hc
        rw [if_pos rfl] at h
        simp only [Option.some.injEq, Prod.mk.injEq] at h
        obtain ⟨hps, hr⟩ := h
        subst hps; subst hr
        refine ⟨w ++ ['\x7d'], by simp [hdec], EntriesG.done w hw⟩
      · simp only [hc, if_false, Option.bind_eq_some] at h
        obtain ⟨pr, hpr, h2⟩ := h
        obtain ⟨hqk, hqv, w2, w3, hw2, hw3, hpe⟩ :=
          parsePair_sound _ pr.1.1 pr.1.2 pr.2 (by simpa using hpr)
        obtain ⟨w4, hw4, hdec2⟩ := skipWs_decomp pr.2
        cases hsk2 : skipWs pr.2 with
        | nil => rw [hsk2] at h2; simp at h2
        | cons c2 cs2 =>
          rw [hsk2] at h2
          rw [hsk2] at hdec2
          dsimp only at h2
          by_cases hc2 : c2 = ','
          · subst hc2
            rw [if_pos rfl] at h2
            simp only [Option.map_eq_some'] at h2
            obtain ⟨q, hq, heq⟩ := h2
            obtain ⟨region', hre, hEG⟩ := ih cs2 q.1 q.2 (by
              rw [hq])
            have hps : ps = pr.1 :: q.1 := by
              have := congrArg (fun x => x.1) heq
              simpa using this.symm
            have hr : rest = q.2 := by
              have := congrArg (fun x => x.2) heq
              simpa using this.symm
            subst hps; subst hr
            refine ⟨w ++ strLit pr.1.1 ++ w2 ++ ':' :: w3 ++ strLit pr.1.2 ++
              w4 ++ ',' :: region', ?_, ?_⟩
            · rw [hdec, hpe, hdec2, hre]
              simp [List.append_assoc]
            · exact EntriesG.cons pr.1.1 pr.1.2 q.1 w w2 w3 w4 region'
                hqk hqv hw hw2 hw3 hw4 hEG
          · by_cases hc2' : c2 = '\x7d'
            · subst hc2'
              rw [if_neg hc2, if_pos rfl] at h2
              simp only [Option.some.injEq, Prod.mk.injEq] at h2
              obtain ⟨hps, hr⟩ := h2
              subst hps; subst hr
              refine ⟨w ++ strLit pr.1.1 ++ w2 ++ ':' :: w3 ++ strLit pr.1.2 ++
                w4 ++ ['\x7d'], ?_, ?_⟩
              · rw [hdec, hpe, hdec2]
                simp [List.append_assoc]
              · exact EntriesG.last pr.1.1 pr.1.2 w w2 w3 w4
                  hqk hqv hw hw2 hw3 hw4
            · simp [hc2, hc2'] at h2

/-- Success of parseBlob means the input derives the returned pairs in
the blob grammar. -/
theorem parseBlob_sound (cs : List Char) (ps : List (String × String))
    (h : parseBlob cs = some ps) : BlobG ps cs := by
  simp only [parseBlob, Option.bind_eq_some] at h
  obtain ⟨c1, h1, c2, h2, c3, h3, c4, h4, c5, h5, pr, hpr, c6, h6, hif⟩ := h
  obtain ⟨w1, hw1, d1⟩ := skipWs_decomp cs
  have e1 : skipWs cs = dictTok ++ c1 := expectTok_sound dictTok _ _ h1
  obtain ⟨w2, hw2, d2⟩ := skipWs_decomp c1
  have e2 : skipWs c1 = '(' :: c2 := expectChar_sound _ _ _ h2
  obtain ⟨w3, hw3, d3⟩ := skipWs_decomp c2
  have e3 : skipWs c2 = wordsTok ++ c3 := expectTok_sound wordsTok _ _ h3
  obtain ⟨w4, hw4, d4⟩ := skipWs_decomp c3
  have e4 : skipWs c3 = ':' :: c4 := expectChar_sound _ _ _ h4
  obtain ⟨w5, hw5, d5⟩ := skipWs_decomp c4
  have e5 : skipWs c4 = '\x7b' :: c5 := expectChar_sound _ _ _ h5
  obtain ⟨region, hre, hEG⟩ := parseEntries_sound _ _ _ _ hpr
  obtain ⟨w6, hw6, d6⟩ := skipWs_decomp pr.2
  have e6 : skipWs pr.2 = ')' :: c6 := expectChar_sound _ _ _ h6
  have hnil : skipWs c6 = [] ∧ pr.1 = ps := by
    by_cases hn : skipWs c6 = []
    · rw [if_pos hn] at hif
      simp only [Option.some.injEq] at hif
      exact ⟨hn, hif⟩
    · rw [if_neg hn] at hif
      simp at hif
  obtain ⟨w7, hw7, d7⟩ := skipWs_decomp c6
  have hc6 : c6 = w7 := by rw [d7, hnil.1, List.append_nil]
  have hfin : cs = w1 ++ dictTok ++ w2 ++ '(' :: w3 ++ wordsTok ++ w4 ++
      ':' :: w5 ++ '\x7b' :: (region ++ w6 ++ ')' :: w7) := by
    rw [d1, e1, d2, e2, d3, e3, d4, e4, d5, e5, hre, d6, e6, hc6]
    simp [List.append_assoc]
  rw [hfin, ← hnil.2]
  exact BlobG.mk pr.1 w1 w2 w3 w4 w5 w6 w7 region
    hw1 hw2 hw3 hw4 hw5 hw6 hw7 hEG

/-- Reading an expected character off an input that starts with it. -/
theorem expectChar_complete (c : Char) (rest : List Char) :
    expectChar c (c :: rest) = some rest := by
  simp [expectChar]

/-- Reading an expected token off an input that starts with it. -/
theorem expectTok_complete (pat rest : List Char) :
    expectTok pat (pat ++ rest) = some rest := by
  induction pat with
  | nil => rfl
  | cons p ps ih => simp [expectTok, ih]

/-- Reading a quote-free body followed by a closing quote. -/
theorem takeStringBody_complete (body rest : List Char)
    (h : ∀ c ∈ body, c ≠ '"') :
    takeStringBody (body ++ '"' :: rest) = some (body, rest) := by
  induction body with
  | nil => simp [takeStringBody]
  | cons c b ih =>
    have hc : c ≠ '"' := h c (List.mem_cons_self c b)
    have hb : ∀ x ∈ b, x ≠ '"' := fun x hx => h x (List.mem_cons_of_mem c hx)
    simp [takeStringBody, hc, ih hb]

/-- Reading a rendered string literal yields the string back. -/
theorem parseStringLit_complete (s : String) (rest : List Char)
    (h : NoQuote s) : parseStringLit (strLit s ++ rest) = some (s, rest) := by
  have e : strLit s ++ rest = '"' :: (s.data ++ '"' :: rest) := by
    simp [strLit]
  rw [e]
  simp only [parseStringLit]
  rw [if_pos trivial, takeStringBody_complete s.data rest h]

/-- Reading a rendered key-value pair yields the pair back. -/
theorem parsePair_complete (k v : String) (w2 w3 rest : List Char)
    (hk : NoQuote k) (hv : NoQuote v) (h2 : Ws w2) (h3 : Ws w3) :
    parsePair (strLit k ++ (w2 ++ ':' :: (w3 ++ (strLit v ++ rest)))) =
      some ((k, v), rest) := by
  rw [parsePair, parseStringLit_complete _ _ hk]
  dsimp only [Option.bind]
  rw [skipWs_ws_append _ _ h2, skipWs_cons_nws _ _ (by decide),
    expectChar_complete]
  dsimp only [Option.bind]
  rw [skipWs_ws_append _ _ h3]
  have ev : strLit v ++ rest = '"' :: (v.data ++ '"' :: rest) := by
    simp [strLit]
  rw [ev, skipWs_cons_nws _ _ (by decide), ← ev,
    parseStringLit_complete _ _ hv]
  rfl

/-- Reading a rendered entry region yields the pairs back, with any
sufficient fuel. -/
theorem parseEntries_complete (ps : List (String × String))
    (region : List Char) (hE : EntriesG ps region) : ∀ rest fuel,
      region.length < fuel → parseEntries fuel (region ++ rest) = some (ps, rest) := by
  induction hE with
  | done w hw =>
    intro rest fuel hlt
    cases fuel with
    | zero => omega
    | succ f =>
      have e : (w ++ ['\x7d']) ++ rest = w ++ ('\x7d' :: rest) := by simp
      rw [e]
      simp only [parseEntries]
      rw [skipWs_ws_append _ _ hw, skipWs_cons_nws _ _ (by decide)]
      dsimp only
      rw [if_pos rfl]
  | last k v w1 w2 w3 w4 hk hv h1 h2 h3 h4 =>
    intro rest fuel hlt
    cases fuel with
    | zero => omega
    | succ f =>
      have e : (w1 ++ strLit k ++ w2 ++ ':' :: w3 ++ strLit v ++ w4 ++
            ['\x7d']) ++ rest =
          w1 ++ (strLit k ++ (w2 ++ ':' :: (w3 ++ (strLit v ++
            (w4 ++ '\x7d' :: rest))))) := by
        simp [List.append_assoc]
      rw [e]
      simp only [parseEntries]
      rw [skipWs_ws_append _ _ h1]
      have e2 : strLit k ++ (w2 ++ ':' :: (w3 ++ (strLit v ++
            (w4 ++ '\x7d' :: rest)))) =
          '"' :: (k.data ++ '"' :: (w2 ++ ':' :: (w3 ++ (strLit v ++
            (w4 ++ '\x7d' :: rest))))) := by
        simp [strLit]
      rw [e2, skipWs_cons_nws _ _ (by decide)]
      dsimp only
      rw [if_neg (by decide), ← e2, parsePair_complete k v w2 w3 _ hk hv h2 h3]
      dsimp only [Option.bind]
      rw [skipWs_ws_append _ _ h4, skipWs_cons_nws _ _ (by decide)]
      dsimp only
      rw [if_neg (by decide), if_pos rfl]
  | cons k v ps' w1 w2 w3 w4 rest' hk hv h1 h2 h3 h4 hrest ih =>
    intro rest fuel hlt
    cases fuel with
    | zero => omega
    | succ f =>
      have e : (w1 ++ strLit k ++ w2 ++ ':' :: w3 ++ strLit v ++ w4 ++
            ',' :: rest') ++ rest =
          w1 ++ (strLit k ++ (w2 ++ ':' :: (w3 ++ (strLit v ++
            (w4 ++ ',' :: (rest' ++ rest)))))) := by
        simp [List.append_assoc]
      rw [e]
      simp only [parseEntries]
      rw [skipWs_ws_append _ _ h1]
      have e2 : strLit k ++ (w2 ++ ':' :: (w3 ++ (strLit v ++
            (w4 ++ ',' :: (rest' ++ rest))))) =
          '"' :: (k.data ++ '"' :: (w2 ++ ':' :: (w3 ++ (strLit v ++
            (w4 ++ ',' :: (rest' ++ rest)))))) := by
        simp [strLit]
      rw [e2, skipWs_cons_nws _ _ (by decide)]
      dsimp only
      rw [if_neg (by decide), ← e2, parsePair_complete k v w2 w3 _ hk hv h2 h3]
      dsimp only [Option.bind]
      rw [skipWs_ws_append _ _ h4, skipWs_cons_nws _ _ (by decide)]
      dsimp only
      rw [if_pos rfl]
      have hf : rest'.length < f := by
        simp [strLit] at hlt
        omega
      rw [ih rest f hf]
      rfl

/-- Skipping whitespace stops at the Dictionary token. -/
theorem skipWs_dictTok (x : List Char) :
    skipWs (dictTok ++ x) = dictTok ++ x := by
  have e : dictTok ++ x = 'D' :: ("ictionary".data ++ x) := by
    have : dictTok = 'D' :: "ictionary".data := by decide
    rw [this]
    rfl
  rw [e, skipWs_cons_nws _ _ (by decide)]

/-- Skipping whitespace stops at the words token. -/
theorem skipWs_wordsTok (x : List Char) :
    skipWs (wordsTok ++ x) = wordsTok ++ x := by
  have e : wordsTok ++ x = 'w' :: ("ords".data ++ x) := by
    have : wordsTok = 'w' :: "ords".data := by decide
    rw [this]
    rfl
  rw [e, skipWs_cons_nws _ _ (by decide)]

/-- Reading a blob built by the blob grammar yields its pairs. -/
theorem parseBlob_complete (ps : List (String × String)) (cs : List Char)
    (hB : BlobG ps cs) : parseBlob cs = some ps := by
  cases hB with
  | mk w1 w2 w3 w4 w5 w6 w7 region h1 h2 h3 h4 h5 h6 h7 hE =>
    have e : w1 ++ dictTok ++ w2 ++ '(' :: w3 ++ wordsTok ++ w4 ++
          ':' :: w5 ++ '\x7b' :: (region ++ w6 ++ ')' :: w7) =
        w1 ++ (dictTok ++ (w2 ++ ('(' :: (w3 ++ (wordsTok ++ (w4 ++
          (':' :: (w5 ++ ('\x7b' :: (region ++ (w6 ++ ')' :: w7))))))))))) := by
      simp [List.append_assoc]
    rw [e, parseBlob, skipWs_ws_append _ _ h1, skipWs_dictTok,
      expectTok_complete]
    dsimp only [Option.bind]
    rw [skipWs_ws_append _ _ h2, skipWs_cons_nws _ _ (by decide),
      expectChar_complete]
    dsimp only [Option.bind]
    rw [skipWs_ws_append _ _ h3, skipWs_wordsTok, expectTok_complete]
    dsimp only [Option.bind]
    rw [skipWs_ws_append _ _ h4, skipWs_cons_nws _ _ (by decide),
      expectChar_complete]
    dsimp only [Option.bind]
    rw [skipWs_ws_append _ _ h5, skipWs_cons_nws _ _ (by decide),
      expectChar_complete]
    dsimp only [Option.bind]
    rw [parseEntries_complete ps region hE (w6 ++ ')' :: w7) _
      (by simp [List.length_append]; omega)]
    dsimp only [Option.bind]
    rw [skipWs_ws_append _ _ h6, skipWs_cons_nws _ _ (by decide),
      expectChar_complete]
    dsimp only [Option.bind]
    rw [if_pos (skipWs_ws_nil w7 h7)]

/-- C1: for every Localization state and every (key, value) pair present in
the dictionary mapped to the current active language, text(key) returns
exactly value. -/
theorem C1_text_returns_active_translation (loc : Localization)
    (key value : String) (d : Dictionary)
    (hd : List.lookup loc.language loc.dictionaries = some d)
    (hw : List.lookup key d.words = some value) :
    loc.text key = value := by
  simp [Localization.text, hd, hw]

/-- Witness for C1 at a concrete state: the de_DE dictionary maps hello to
Hallo and text resolves it. -/
theorem C1_text_returns_active_translation_witness :
    List.lookup "de_DE"
      (Localization.mk "de_DE" [("de_DE", Dictionary.mk [("hello", "Hallo")])]).dictionaries
      = some (Dictionary.mk [("hello", "Hallo")]) ∧
    Localization.text
      (Localization.mk "de_DE" [("de_DE", Dictionary.mk [("hello", "Hallo")])])
      "hello" = "Hallo" :=
  ⟨by decide,
   C1_text_returns_active_translation _ _ _ (Dictionary.mk [("hello", "Hallo")])
     (by decide) (by decide)⟩

/-- C2: when the active language has no dictionary, or the key is absent
from it, text(key) returns the key unchanged; the operation is a total
function of the state and the key. -/
theorem C2_text_fallback_identity (loc : Localization) (key : String)
    (h : ∀ d, List.lookup loc.language loc.dictionaries = some d →
      List.lookup key d.words = none) :
    loc.text key = key := by
  unfold Localization.text
  cases hd : List.lookup loc.language loc.dictionaries with
  | none => rfl
  | some d => simp [h d hd]

/-- Witness for C2 at a concrete state with no dictionaries at all. -/
theorem C2_text_fallback_identity_witness :
    (∀ d, List.lookup "en_US" (Localization.mk "en_US" []).dictionaries = some d →
      List.lookup "anything" d.words = none) ∧
    Localization.text (Localization.mk "en_US" []) "anything" = "anything" :=
  ⟨fun d hd => by simp [List.lookup] at hd,
   C2_text_fallback_identity _ _ (fun d hd => by simp [List.lookup] at hd)⟩

/-- C3: the conversion from a single (language-key, blob) pair inserts the
parsed blob under the pair's key and sets the active language to the blob
string itself, so language() on the result equals the blob. -/
theorem C3_fromPair_sets_language_to_blob (k blob : String) :
    (Localization.fromPair (k, blob)).language = blob ∧
    List.lookup k (Localization.fromPair (k, blob)).dictionaries =
      some (Dictionary.fromBlob blob) := by
  refine ⟨rfl, ?_⟩
  simp only [Localization.fromPair, Localization.create,
    LocalizationBuilder.dictionary, LocalizationBuilder.withLanguage,
    LocalizationBuilder.build]
  exact lookup_mapInsert_self _ _ _

/-- C4: after set_language with a key that has no dictionary entry, every
text lookup falls back to the requested key, whatever the other
dictionaries contain. -/
theorem C4_missing_language_full_fallback (loc : Localization) (k : String)
    (h : List.lookup k loc.dictionaries = none) (key : String) :
    (loc.set_language k).text key = key := by
  simp [Localization.set_language, Localization.text, h]

/-- Witness for C4: switching to fr_FR, which has no dictionary, makes
text echo a key that the de_DE dictionary does translate. -/
theorem C4_missing_language_full_fallback_witness :
    List.lookup "fr_FR"
      (Localization.mk "de_DE" [("de_DE", Dictionary.mk [("hello", "Hallo")])]).dictionaries
      = none ∧
    (Localization.set_language
      (Localization.mk "de_DE" [("de_DE", Dictionary.mk [("hello", "Hallo")])])
      "fr_FR").text "hello" = "hello" :=
  ⟨by decide,
   C4_missing_language_full_fallback _ _ (by decide) _⟩

/-- C5: set_language unconditionally overwrites the active language key,
with no validation against the dictionaries map, and language() then
returns that key. -/
theorem C5_set_language_unconditional (loc : Localization) (k : String) :
    (loc.set_language k).language = k := rfl

/-- C6: inserting two blobs under the same key in the builder leaves the
mapping for that key at the parse of the second blob only, both in the
builder and in the built Localization. -/
theorem C6_dictionary_last_write_wins (b : LocalizationBuilder)
    (k b1 b2 : String) :
    List.lookup k ((b.dictionary k b1).dictionary k b2).dictionaries =
      some (Dictionary.fromBlob b2) ∧
    List.lookup k (((b.dictionary k b1).dictionary k b2).build).dictionaries =
      some (Dictionary.fromBlob b2) := by
  refine ⟨?_, ?_⟩ <;>
    simp only [LocalizationBuilder.dictionary, LocalizationBuilder.build] <;>
    exact lookup_mapInsert_self _ _ _

/-- C7: after build, no operation changes the dictionaries map:
set_language touches only the language field, a text call leaves the
whole state unchanged, and build itself moves the builder's map over
verbatim. -/
theorem C7_dictionaries_frame :
    (∀ (loc : Localization) (k : String),
      (loc.set_language k).dictionaries = loc.dictionaries) ∧
    (∀ (loc : Localization) (key : String), (loc.textCall key).2 = loc) ∧
    (∀ b : LocalizationBuilder, b.build.dictionaries = b.dictionaries) :=
  ⟨fun _ _ => rfl, fun _ _ => rfl, fun _ => rfl⟩

/-- C8: dictionary construction from a text blob fails with a ParseError
exactly when the blob does not conform to the expected schema, a single
Dictionary object with one field words mapping string to string; the
parse is the only operation of the core whose result type carries an
error at all. -/
theorem C8_parse_error_iff_nonconforming (s : String) :
    Dictionary.parse s = Except.error ParseError.malformed ↔ ¬ Conforms s := by
  unfold Dictionary.parse
  cases hp : parseBlob s.data with
  | none =>
    constructor
    · intro _
      rintro ⟨ps, hB⟩
      have hc := parseBlob_complete ps s.data hB
      rw [hp] at hc
      exact Option.noConfusion hc
    · intro _
      rfl
  | some ps =>
    constructor
    · intro h
      exact Except.noConfusion h
    · intro h
      exact absurd ⟨ps, parseBlob_sound s.data ps hp⟩ h

/-- C9: two successive text calls without intervening mutation return the
same string, and the state after the second call equals the state after
the first. -/
theorem C9_text_deterministic (loc : Localization) (key : String) :
    ((loc.textCall key).2.textCall key).1 = (loc.textCall key).1 ∧
    ((loc.textCall key).2.textCall key).2 = (loc.textCall key).2 :=
  ⟨rfl, rfl⟩

/-- C10: on the builder, a second language call overwrites the first, and
a language call commutes with a dictionary call, both at the builder and
after build. -/
theorem C10_builder_language_laws :
    (∀ (b : LocalizationBuilder) (k1 k2 : String),
      (b.withLanguage k1).withLanguage k2 = b.withLanguage k2) ∧
    (∀ (b : LocalizationBuilder) (l dk blob : String),
      (b.withLanguage l).dictionary dk blob =
        (b.dictionary dk blob).withLanguage l) ∧
    (∀ (b : LocalizationBuilder) (l dk blob : String),
      ((b.withLanguage l).dictionary dk blob).build =
        ((b.dictionary dk blob).withLanguage l).build) :=
  ⟨fun _ _ _ => rfl, fun _ _ _ _ => rfl, fun _ _ _ _ => rfl⟩

end Orbtk
